import Mathlib

/-
  Verification of the EPD mate-filter core (src/epd_mate.py).

  The Python source is shallowly embedded below.  The external chess library
  (python-chess) is an external collaborator; its board/move operations are
  abstracted as a `Chess` structure whose fields model the exact operations the
  source calls (`Board(fen)`, `board.turn`, `board.push`, `board.is_checkmate`,
  `Move.from_uci`, `mv.uci()`, `board.fen()`, assignment to `board.turn`),
  together with laws that hold of the library (pushing a move flips the side to
  move; setting the turn field sets exactly that field).
-/

namespace EpdMate

/-! ## Python string primitives used by the source -/

/-- Python `\s` / `str.strip()` whitespace set (ASCII). -/
def isPySpace (c : Char) : Bool :=
  c == ' ' || c == '\t' || c == '\n' || c == '\x0d' || c == '\x0b' || c == '\x0c'

/-- Model of Python `str.strip()` on a character list. -/
def pyStripChars (cs : List Char) : List Char :=
  ((cs.dropWhile isPySpace).reverse.dropWhile isPySpace).reverse

/-- Model of Python `str.strip()`. -/
def pyStrip (s : String) : String :=
  String.mk (pyStripChars s.data)

/-- Accumulator worker for whitespace splitting. -/
def splitWsAux : List Char → List Char → List String
  | acc, [] => if acc.isEmpty then [] else [String.mk acc.reverse]
  | acc, c :: cs =>
    if isPySpace c then
      if acc.isEmpty then splitWsAux [] cs
      else String.mk acc.reverse :: splitWsAux [] cs
    else splitWsAux (c :: acc) cs

/-- Model of Python `str.split()` with no separator: split on whitespace runs,
discarding empty fields. -/
def pySplitWs (cs : List Char) : List String := splitWsAux [] cs

/-- Model of `' '.join(xs)`. -/
def joinSpace (xs : List String) : String := String.intercalate " " xs

/-! ## The regular expressions of the source -/

/-- Characters matched by `_MOVE_SUFFIX_PATTERN = re.compile(r'[+#?!]+$')`
(src/epd_mate.py line 376). -/
def isMoveSuffixChar (c : Char) : Bool :=
  c == '+' || c == '#' || c == '?' || c == '!'

/-- Remove the maximal trailing run of move-suffix marker characters, i.e. the
effect of `_MOVE_SUFFIX_PATTERN.sub('', ·)`. -/
def dropTrailingMarkers (cs : List Char) : List Char :=
  (cs.reverse.dropWhile isMoveSuffixChar).reverse

/-- Model of `_sanitize_uci` (src/epd_mate.py lines 402-405):
empty input maps to the empty string, otherwise strip whitespace and remove the
trailing `[+#?!]+` run. -/
def sanitizeUci (t : String) : String :=
  if t = "" then ""
  else String.mk (dropTrailingMarkers (pyStripChars t.data))

/-- Match a literal key at the head of the input, case-insensitively when
`ci = true` (the `re.IGNORECASE` flag); returns the rest on success. -/
def matchLit (ci : Bool) : List Char → List Char → Option (List Char)
  | [], cs => some cs
  | _ :: _, [] => none
  | k :: ks, c :: cs =>
    if (if ci then c.toLower == k else c == k) then matchLit ci ks cs else none

/-- Match the pattern `;\s*KEY\s*"([^"]+)"` anchored at the head of the input,
returning the quoted group.  Models one anchored attempt of `_SOL_PATTERN` /
`_THEME_PATTERN` (src/epd_mate.py lines 373-374). -/
def matchKeyQuoted (key : List Char) (cs : List Char) : Option String :=
  match cs with
  | ';' :: rest =>
    match matchLit true key (rest.dropWhile isPySpace) with
    | none => none
    | some r2 =>
      match r2.dropWhile isPySpace with
      | '"' :: r4 =>
        let content := r4.takeWhile (fun c => c != '"')
        let after := r4.dropWhile (fun c => c != '"')
        if content.isEmpty then none
        else if after.isEmpty then none
        else some (String.mk content)
      | _ => none
  | _ => none

/-- Model of `re.search` for `matchKeyQuoted`: first position (left to right)
where the anchored pattern matches. -/
def searchKeyQuoted (key : List Char) : List Char → Option String
  | [] => none
  | c :: cs =>
    match matchKeyQuoted key (c :: cs) with
    | some r => some r
    | none => searchKeyQuoted key cs

/-- Model of `_SOL_PATTERN.search(raw_line)`, returning group 1. -/
def searchSol (s : String) : Option String :=
  searchKeyQuoted ['s', 'o', 'l'] s.data

/-- Model of `_THEME_PATTERN.search(raw_line)`, returning group 1. -/
def searchTheme (s : String) : Option String :=
  searchKeyQuoted ['t', 'h', 'e', 'm', 'e'] s.data

/-- Numeric value of a digit run (the group already matched by `\d+`). -/
def digitsVal (cs : List Char) : Nat :=
  cs.foldl (fun a c => a * 10 + (c.toNat - '0'.toNat)) 0

/-- Match `mate\s*([+-]?\d+)` anchored at the head of the input and return
`int(group(1))`.  `ci` selects `re.IGNORECASE` (`_MATE_PATTERN`, line 375)
versus the case-sensitive inline pattern of the analyzer (line 277). -/
def matchMateAt (ci : Bool) (cs : List Char) : Option Int :=
  match matchLit ci ['m', 'a', 't', 'e'] cs with
  | none => none
  | some r =>
    let r2 := r.dropWhile isPySpace
    match r2 with
    | '+' :: t =>
      let ds := t.takeWhile Char.isDigit
      if ds.isEmpty then none else some (digitsVal ds)
    | '-' :: t =>
      let ds := t.takeWhile Char.isDigit
      if ds.isEmpty then none else some (-(digitsVal ds : Int))
    | t =>
      let ds := t.takeWhile Char.isDigit
      if ds.isEmpty then none else some (digitsVal ds)

/-- Model of `re.search` for the mate pattern. -/
def searchMateNum (ci : Bool) : List Char → Option Int
  | [] => none
  | c :: cs =>
    match matchMateAt ci (c :: cs) with
    | some v => some v
    | none => searchMateNum ci cs

/-- Step (3) of the analyzer's extraction chain (src/epd_mate.py lines 274-281):
`re.search(r'mate\s*([+-]?\d+)', str(score))`, case-sensitive. -/
def parseMateText (s : String) : Option Int :=
  searchMateNum false s.data

/-- Model of `_extract_mate_moves` (src/epd_mate.py lines 390-399):
case-insensitive search of the mate pattern, absolute value of the group. -/
def extractMateMoves (themeText : String) : Option Nat :=
  if themeText = "" then none
  else (searchMateNum true themeText.data).map Int.natAbs

/-- Model of `_extract_solution_moves` (src/epd_mate.py lines 379-387):
whitespace-split of the stripped solution text, keeping non-empty tokens. -/
def extractSolutionMoves (solutionText : String) : List String :=
  if solutionText = "" then []
  else pySplitWs (pyStripChars solutionText.data)

/-! ## The analysis score and the Mate Extractor -/

/-- Model of the dynamic score object returned by `engine.analyse`.
`mate` models `score.mate()` (`none` covers both a `None` return and a raised
exception); `povMate` models the `score.pov(board.turn).mate()` chain of lines
255-271 (`none` covers every failure of that chain); `text` models
`str(score)`. -/
structure ScoreModel where
  mate : Option Int
  povMate : Option Int
  text : String
  deriving DecidableEq

/-- The Mate Extractor (src/epd_mate.py lines 246-281): try `score.mate()`
first, then the point-of-view query, then the textual parse. -/
def extractMate (s : ScoreModel) : Option Int :=
  match s.mate with
  | some m => some m
  | none =>
    match s.povMate with
    | some m => some m
    | none => parseMateText s.text

/-! ## The chess-library boundary -/

/-- Abstraction of the python-chess operations the source calls, together with
laws that hold of the library.  `tryPush` returns `none` when `board.push`
would raise; `parseUci` returns `none` when `chess.Move.from_uci` would raise;
`parseFen` returns `none` when the `chess.Board` constructor would raise.
`setTurn` models assignment to `board.turn`; `fenTurn` reads the side-to-move
field back out of a FEN string. -/
structure Chess (B M : Type) where
  parseFen : String → Option B
  turn : B → Bool
  isCheckmate : B → Bool
  isLegal : B → M → Bool
  tryPush : B → M → Option B
  parseUci : String → Option M
  uci : M → String
  fen : B → String
  setTurn : B → Bool → B
  fenTurn : String → Bool
  turn_tryPush : ∀ b m b', tryPush b m = some b' → turn b' = !turn b
  turn_setTurn : ∀ b c, turn (setTurn b c) = c
  setTurn_turn : ∀ b, setTurn b (turn b) = b
  fenTurn_fen : ∀ b, fenTurn (fen b) = turn b

/-! ## Solution Annotator: principal-variation walk and marker placement -/

/-- Walk worker for the principal variation (src/epd_mate.py lines 297-312):
record each move's text, then try to apply it; stop when the push fails or the
copy is checkmate (recording the index). -/
def walkPVAux {B M : Type} (C : Chess B M) : B → List M → Nat → List String × Option Nat
  | _, [], _ => ([], none)
  | b, mv :: rest, idx =>
    let u := C.uci mv
    match C.tryPush b mv with
    | none => ([u], none)
    | some b' =>
      if C.isCheckmate b' then ([u], some idx)
      else
        let r := walkPVAux C b' rest (idx + 1)
        (u :: r.1, r.2)

/-- The principal-variation walk, returning the recorded move texts and the
index of the checkmating move when found. -/
def walkPV {B M : Type} (C : Chess B M) (b : B) (pv : List M) : List String × Option Nat :=
  walkPVAux C b pv 0

/-- Marker placement (src/epd_mate.py lines 314-320): append `#` to the move at
the recorded checkmate index, or to the last move when no index was recorded.
`List.set` is a no-op out of range, matching the `except: pass` guard. -/
def annotateMoves (moveUcis : List String) (mateIndex : Option Nat) : List String :=
  if moveUcis.isEmpty then moveUcis
  else
    let markIdx := mateIndex.getD (moveUcis.length - 1)
    moveUcis.set markIdx (moveUcis.getD markIdx "" ++ "#")

/-! ## Filter Pipeline (AnalyzerThread.run) -/

/-- Outcome of one `engine.analyse` call: either the call raised (caught at
line 343 and the line skipped), or it produced an info dictionary whose
`score` entry may be absent and whose `pv` entry is a move list. -/
inductive EngineReply (M : Type) where
  | raised : EngineReply M
  | info : Option ScoreModel → List M → EngineReply M

/-- Behaviour of the run while processing one input line: `fatal` models an
uncaught exception escaping during this line's processing (for example one of
the unguarded `self.log_callback` calls at lines 202, 238 or 344 raising),
which propagates to the outer handler at line 366; `reply` gives the engine's
answer for the line. -/
inductive LineStep (M : Type) where
  | fatal : LineStep M
  | reply : EngineReply M → LineStep M

/-- Environment of one `AnalyzerThread.run` invocation. `step p` is the
behaviour while processing the `p`-th line (1-based); `stopAt p` is the value
of `stop_event.is_set()` polled before processing the line that would become
the `(p+1)`-th. -/
structure FilterEnv (M : Type) where
  engineStartOk : Bool
  lines : List String
  outputOpenOk : Bool
  step : Nat → LineStep M
  stopAt : Nat → Bool
  addSolution : Bool
  mateLimit : Nat

/-- A line written to the output stream together with the mate magnitude that
justified keeping it. -/
structure KeptLine where
  text : String
  mateMoves : Nat
  deriving DecidableEq

/-- Result of processing one line inside the streaming loop. -/
inductive LineResult where
  | fatal : LineResult
  | skip : LineResult
  | keep : KeptLine → LineResult

/-- Per-line processing (src/epd_mate.py lines 205-346): strip, skip blanks,
take the first six fields as the candidate FEN, validate it, analyse, extract
the mate distance, and keep the line exactly when `1 <= |mate| <= mate_limit`,
appending the `sol`/`theme` operands when solution output is enabled. -/
def processLine {B M : Type} (C : Chess B M) (env : FilterEnv M) (line : String) (p : Nat) :
    LineResult :=
  match env.step p with
  | .fatal => .fatal
  | .reply rep =>
    let fenLine := pyStrip line
    if fenLine = "" then .skip
    else
      let fields := pySplitWs fenLine.data
      let candidateFen := if 6 ≤ fields.length then joinSpace (fields.take 6) else fenLine
      match C.parseFen candidateFen with
      | none => .skip
      | some board =>
        match rep with
        | .raised => .skip
        | .info score pv =>
          let mate : Option Int :=
            match score with
            | none => none
            | some s => extractMate s
          match mate with
          | none => .skip
          | some m =>
            let d := m.natAbs
            if 1 ≤ d ∧ d ≤ env.mateLimit then
              let walked := walkPV C board pv
              let annotated := annotateMoves walked.1 walked.2
              let outLine :=
                if env.addSolution ∧ ¬annotated.isEmpty then
                  line ++ " ; sol \"" ++ joinSpace annotated ++ "\";" ++
                    " ; theme \"mate " ++ toString d ++ "\";"
                else line
              .keep ⟨outLine, d⟩
            else .skip

/-- How a run of the streaming loop ended. -/
inductive RunOutcome where
  | startFailed : RunOutcome
  | emptyInput : RunOutcome
  | completed : RunOutcome
  | cancelled : RunOutcome
  | fatal : RunOutcome
  deriving DecidableEq

/-- The streaming loop (src/epd_mate.py lines 200-346): poll the stop event,
process each line, and stop early on cancellation or on an uncaught
exception.  Returns the final processed count, the kept lines written, and the
way the loop ended. -/
def filterLoop {B M : Type} (C : Chess B M) (env : FilterEnv M) :
    List String → Nat → Nat × List KeptLine × RunOutcome
  | [], p => (p, [], .completed)
  | line :: rest, p =>
    if env.stopAt p then (p, [], .cancelled)
    else
      match processLine C env line (p + 1) with
      | .fatal => (p + 1, [], .fatal)
      | .skip => filterLoop C env rest (p + 1)
      | .keep r =>
        let t := filterLoop C env rest (p + 1)
        (t.1, r :: t.2.1, t.2.2)

/-- Final state of one `AnalyzerThread.run` invocation. -/
structure FilterResult where
  engineStarted : Bool
  engineQuit : Bool
  processed : Nat
  kept : List KeptLine
  outcome : RunOutcome
  deriving DecidableEq

/-- Model of `AnalyzerThread.run` (src/epd_mate.py lines 162-370).  The engine
is quit on the empty-input return (line 184) and after the streaming loop
(line 350); the outer `except` handler (lines 366-370) only logs, so a fatal
path leaves the engine running. -/
def runFilter {B M : Type} (C : Chess B M) (env : FilterEnv M) : FilterResult :=
  if env.engineStartOk = false then
    ⟨false, false, 0, [], .startFailed⟩
  else if env.lines.isEmpty then
    ⟨true, true, 0, [], .emptyInput⟩
  else if env.outputOpenOk = false then
    ⟨true, false, 0, [], .fatal⟩
  else if (filterLoop C env env.lines 0).2.2 = RunOutcome.fatal then
    ⟨true, false, (filterLoop C env env.lines 0).1,
      (filterLoop C env env.lines 0).2.1, (filterLoop C env env.lines 0).2.2⟩
  else
    ⟨true, true, (filterLoop C env env.lines 0).1,
      (filterLoop C env env.lines 0).2.1, (filterLoop C env env.lines 0).2.2⟩

/-! ## Puzzle Builder -/

/-- A puzzle record (src/epd_mate.py lines 483-490 and 523-530). -/
structure PuzzleEntry where
  fen : String
  solution : List String
  movesToMate : Option Nat
  elo : Nat
  solved : Nat
  failed : Nat
  deriving DecidableEq

/-- The revalidation loop of `_build_puzzle_entry` (src/epd_mate.py lines
420-439): sanitize each token, skip tokens that are empty after sanitizing,
fail to parse, or are illegal, and apply the rest in order.  Returns the final
board and the (uci, original token) pairs of the applied moves; `none` models
`board_sim.push` raising, which escapes to the outer handler of
`_build_puzzle_entry` (line 532). -/
def revalidateLoop {B M : Type} (C : Chess B M) :
    B → List String → Option (B × List (String × String))
  | b, [] => some (b, [])
  | b, tok :: rest =>
    let mvUci := sanitizeUci tok
    if mvUci = "" then revalidateLoop C b rest
    else
      match C.parseUci mvUci with
      | none => revalidateLoop C b rest
      | some mv =>
        if C.isLegal b mv then
          match C.tryPush b mv with
          | none => none
          | some b' =>
            match revalidateLoop C b' rest with
            | none => none
            | some (bf, pairs) => some (bf, (mvUci, tok) :: pairs)
        else revalidateLoop C b rest

/-- Winner computation of the main branch (src/epd_mate.py line 493): the side
not to move in the replayed position when it is checkmate, else the original
side to move. -/
def mainWinner {B M : Type} (C : Chess B M) (board boardSim : B) : Bool :=
  if C.isCheckmate boardSim then !C.turn boardSim else C.turn board

/-- Winner computation of the no-valid-moves fallback (src/epd_mate.py lines
456-466): when the mate distance is truthy, odd means the original side to
move wins and even means the other side; otherwise the original side to move
is assumed. -/
def fallbackWinner {B M : Type} (C : Chess B M) (board : B) (mateMoves : Option Nat) : Bool :=
  match mateMoves with
  | some n =>
    if n ≠ 0 then
      if n % 2 = 1 then C.turn board else !C.turn board
    else C.turn board
  | none => C.turn board

/-- Model of `_build_puzzle_entry` (src/epd_mate.py lines 408-535). -/
def buildPuzzleEntry {B M : Type} (C : Chess B M) (board : B) (solutionMoves : List String)
    (mateMoves : Option Nat) (fixMoveOrder : Bool) : Option PuzzleEntry :=
  match revalidateLoop C board solutionMoves with
  | none => none
  | some (boardSim, pairs) =>
    match pairs with
    | [] =>
      match solutionMoves with
      | [] => none
      | t0 :: trest =>
        let w := fallbackWinner C board mateMoves
        if fixMoveOrder then
          let fu := sanitizeUci t0
          let bj :=
            if fu ≠ "" then
              match C.parseUci fu with
              | some mv =>
                if C.isLegal board mv then
                  match C.tryPush board mv with
                  | some b1 => (b1, trest)
                  | none => (board, t0 :: trest)
                else (board, t0 :: trest)
              | none => (board, t0 :: trest)
            else (board, t0 :: trest)
          some ⟨C.fen (C.setTurn bj.1 w), bj.2, mateMoves, 1200, 0, 0⟩
        else some ⟨C.fen board, t0 :: trest, mateMoves, 1200, 0, 0⟩
    | (u, t) :: ps =>
      let validTokens := ((u, t) :: ps).map Prod.snd
      let w := mainWinner C board boardSim
      if fixMoveOrder then
        let bj :=
          if C.turn board ≠ w then
            match C.parseUci u with
            | some mv =>
              if C.isLegal board mv then
                match C.tryPush board mv with
                | some b1 => (b1, ps.map Prod.snd)
                | none => (board, validTokens)
              else (board, validTokens)
            | none => (board, validTokens)
          else (board, validTokens)
        some ⟨C.fen (C.setTurn bj.1 w), bj.2, mateMoves, 1200, 0, 0⟩
      else some ⟨C.fen board, validTokens, mateMoves, 1200, 0, 0⟩

/-- The whitespace-separated fields of the segment of a line preceding its
first `;` (src/epd_mate.py lines 551-552). -/
def baseFields (rawLine : String) : List String :=
  pySplitWs (pyStripChars (rawLine.data.takeWhile (fun c => c != ';')))

/-- Model of `_parse_puzzle_from_line` (src/epd_mate.py lines 538-577). -/
def parsePuzzleFromLine {B M : Type} (C : Chess B M) (rawLine : String)
    (fixMoveOrder : Bool) : Option PuzzleEntry :=
  match searchSol rawLine with
  | none => none
  | some solText =>
    let solutionMoves := extractSolutionMoves solText
    if solutionMoves.isEmpty then none
    else
      let fields := baseFields rawLine
      if fields.length < 4 then none
      else
        let fenFields := if 6 ≤ fields.length then fields.take 6 else fields
        let fen := joinSpace fenFields
        match C.parseFen fen with
        | none => none
        | some board =>
          let mateMoves : Option Nat :=
            match searchTheme rawLine with
            | some themeText => extractMateMoves themeText
            | none => none
          let mateMoves := match mateMoves with
            | none => some solutionMoves.length
            | some n => some n
          buildPuzzleEntry C board solutionMoves mateMoves fixMoveOrder

/-- Modelled from the spec (claim C9's wording, for comparison with the
source's `_sanitize_uci`): the token with all trailing non-alphanumeric
characters removed. -/
def stripTrailingNonAlnumSpec (t : String) : String :=
  String.mk (t.data.reverse.dropWhile (fun c => !c.isAlphanum)).reverse

/-! ## A concrete instance of the chess boundary, for closed evaluations -/

/-- Parity of a successor, used for the laws of the concrete instance. -/
theorem succ_parity (b : Nat) : ((b + 1) % 2 == 1) = !(b % 2 == 1) := by
  rcases Nat.mod_two_eq_zero_or_one b with h | h <;> simp [Nat.add_mod, h]

/-- A small concrete family of instances of the chess boundary: boards and
moves are natural numbers, the side to move is the parity of the board, and
pushing any move increments the board (so pushing flips the side to move, as
in the library). -/
def toyChess (pfen : String → Option Nat) (legal : Nat → Nat → Bool)
    (mate : Nat → Bool) (puci : String → Option Nat) : Chess Nat Nat where
  parseFen := pfen
  turn b := b % 2 == 1
  isCheckmate := mate
  isLegal := legal
  tryPush b _ := some (b + 1)
  parseUci := puci
  uci m := toString m
  fen b := String.mk (List.replicate b 'a')
  setTurn b c := if (b % 2 == 1) = c then b else b + 1
  fenTurn s := s.length % 2 == 1
  turn_tryPush := by
    intro b m b' h
    injection h with h
    subst h
    exact succ_parity b
  turn_setTurn := by
    intro b c
    by_cases h : (b % 2 == 1) = c
    · simp only [if_pos h]
      exact h
    · simp only [if_neg h, succ_parity]
      cases c <;> cases hb : (b % 2 == 1) <;> simp_all
  setTurn_turn := by
    intro b
    simp
  fenTurn_fen := by
    intro b
    simp [String.length]

/-- Instance used by the closed evaluation theorems: board `2` is checkmate,
move `9` is illegal everywhere, `"m1"` parses to move `1`, `"m9"` to move `9`,
and only the six-field test position parses as a board. -/
def witChess : Chess Nat Nat :=
  toyChess (fun s => if s = "r1 r2 r3 r4 r5 r6" then some 0 else none)
    (fun _ m => m != 9) (fun b => b == 2)
    (fun s => if s = "m1" then some 1 else if s = "m9" then some 9 else none)

/-- Variant instance where the position after one move (board `1`) is
checkmate. -/
def witChessOne : Chess Nat Nat :=
  toyChess (fun _ => some 0) (fun _ m => m != 9) (fun b => b == 1)
    (fun s => if s = "m1" then some 1 else if s = "m9" then some 9 else none)

/-! ## Shared helper lemmas -/

/-- The head of `dropWhile p l` does not satisfy `p`. -/
theorem head?_dropWhile_not {α : Type} (p : α → Bool) :
    ∀ (l : List α) (c : α), (l.dropWhile p).head? = some c → p c = false := by
  intro l
  induction l with
  | nil =>
    intro c h
    simp [List.dropWhile] at h
  | cons a t ih =>
    intro c h
    by_cases hp : p a
    · rw [List.dropWhile_cons_of_pos hp] at h
      exact ih c h
    · rw [List.dropWhile_cons_of_neg hp] at h
      simp only [List.head?_cons, Option.some.injEq] at h
      subst h
      cases hpa : p a
      · rfl
      · exact absurd hpa hp

/-! ## Claim C3: the Mate Extractor's fallback chain -/

/-- C3: the Mate Extractor resolves a mate distance by an ordered fallback
chain stopping at the first success — direct mate query, then point-of-view
query, then textual parse of `mate <signed integer>`; a score whose only
usable information is the text "mate -4" yields mate `-4`, of magnitude 4 and
negative sign (side to move is being mated). -/
theorem extractMate_fallback_chain :
    (∀ (s : ScoreModel) (m : Int), s.mate = some m → extractMate s = some m) ∧
    (∀ (s : ScoreModel) (m : Int), s.mate = none → s.povMate = some m →
      extractMate s = some m) ∧
    (∀ s : ScoreModel, s.mate = none → s.povMate = none →
      extractMate s = parseMateText s.text) ∧
    (∀ s : ScoreModel, s.mate = none → s.povMate = none → s.text = "mate -4" →
      extractMate s = some (-4) ∧ (-4 : Int).natAbs = 4 ∧ (-4 : Int) < 0) := by
  refine ⟨?_, ?_, ?_, ?_⟩
  · intro s m h
    simp [extractMate, h]
  · intro s m h1 h2
    simp [extractMate, h1, h2]
  · intro s h1 h2
    simp [extractMate, h1, h2]
  · rintro ⟨m, p, txt⟩ h1 h2 h3
    simp only at h1 h2 h3
    subst h1; subst h2; subst h3
    refine ⟨?_, by decide, by decide⟩
    decide

/-- Closed instantiation of the fallback-chain theorem at the score whose only
information is the text "mate -4". -/
theorem extractMate_fallback_chain_witness :
    extractMate ⟨none, none, "mate -4"⟩ = some (-4) ∧
      (-4 : Int).natAbs = 4 ∧ (-4 : Int) < 0 :=
  extractMate_fallback_chain.2.2.2 ⟨none, none, "mate -4"⟩ rfl rfl rfl

/-! ## Claim C9: token sanitization -/

/-- C9 counterexample: on the token "e2e4." the source keeps the trailing dot
(the suffix pattern only strips '+', '#', '?', '!'), while the claim demands
every trailing non-alphanumeric character be removed. -/
theorem sanitizeUci_dot_counterexample :
    sanitizeUci "e2e4." = "e2e4." ∧ stripTrailingNonAlnumSpec "e2e4." = "e2e4" ∧
      ("e2e4." : String) ≠ "e2e4" := by
  decide

/-- C9 (amended): `_sanitize_uci` strips surrounding whitespace and then
exactly the maximal trailing run of the marker characters '+', '#', '?', '!':
the whitespace-stripped token splits as the sanitized text followed by a
suffix consisting of markers only, and the sanitized text does not end in a
marker. -/
theorem sanitizeUci_strips_trailing_markers (t : String) :
    ∃ suf : List Char, (∀ c ∈ suf, isMoveSuffixChar c = true) ∧
      pyStripChars t.data = (sanitizeUci t).data ++ suf ∧
      (∀ c, (sanitizeUci t).data.getLast? = some c → isMoveSuffixChar c = false) := by
  by_cases h0 : t = ""
  · subst h0
    refine ⟨[], by simp, by decide, ?_⟩
    intro c hc
    simp [sanitizeUci] at hc
  · refine ⟨(((pyStripChars t.data).reverse.takeWhile isMoveSuffixChar)).reverse, ?_, ?_, ?_⟩
    · intro c hc
      rw [List.mem_reverse] at hc
      exact List.mem_takeWhile_imp hc
    · rw [sanitizeUci, if_neg h0]
      show pyStripChars t.data =
        dropTrailingMarkers (pyStripChars t.data) ++ _
      rw [dropTrailingMarkers, ← List.reverse_append,
        List.takeWhile_append_dropWhile, List.reverse_reverse]
    · intro c hc
      rw [sanitizeUci, if_neg h0] at hc
      have hc' : (dropTrailingMarkers (pyStripChars t.data)).getLast? = some c := hc
      rw [dropTrailingMarkers, List.getLast?_reverse] at hc'
      exact head?_dropWhile_not _ _ _ hc'

/-! ## Claim C10: short base segment rejects the line -/

/-- C10: a line whose segment preceding the first ';' has fewer than four
whitespace-separated fields produces no puzzle entry, whatever the rest of
the line contains. -/
theorem parsePuzzleFromLine_short_base {B M : Type} (C : Chess B M)
    (rawLine : String) (fixMoveOrder : Bool)
    (h : (baseFields rawLine).length < 4) :
    parsePuzzleFromLine C rawLine fixMoveOrder = none := by
  unfold parsePuzzleFromLine
  cases hs : searchSol rawLine with
  | none => rfl
  | some solText =>
    simp only []
    by_cases he : (extractSolutionMoves solText).isEmpty
    · simp [he]
    · simp [he, h]

/-- Closed instantiation: a line with only two fields before the first ';'
is rejected even though it carries a well-formed `sol` operand. -/
theorem parsePuzzleFromLine_short_base_witness :
    parsePuzzleFromLine witChess "8/8 w ; sol \"e2e4\";" false = none :=
  parsePuzzleFromLine_short_base witChess "8/8 w ; sol \"e2e4\";" false (by decide)

/-! ## Claim C4: exactly one move carries the terminal marker -/

/-- Unfolding lemma for the walk: a move whose push fails stops the walk. -/
theorem walkPVAux_cons_fail {B M : Type} (C : Chess B M) (b : B) (mv : M)
    (rest : List M) (idx : Nat) (hp : C.tryPush b mv = none) :
    walkPVAux C b (mv :: rest) idx = ([C.uci mv], none) := by
  unfold walkPVAux
  rw [hp]

/-- Unfolding lemma for the walk: a move reaching checkmate stops the walk and
records the current index. -/
theorem walkPVAux_cons_mate {B M : Type} (C : Chess B M) (b b' : B) (mv : M)
    (rest : List M) (idx : Nat) (hp : C.tryPush b mv = some b')
    (hm : C.isCheckmate b' = true) :
    walkPVAux C b (mv :: rest) idx = ([C.uci mv], some idx) := by
  unfold walkPVAux
  rw [hp]
  simp [hm]

/-- Unfolding lemma for the walk: a successfully applied non-mating move
prepends its text and continues. -/
theorem walkPVAux_cons_step {B M : Type} (C : Chess B M) (b b' : B) (mv : M)
    (rest : List M) (idx : Nat) (hp : C.tryPush b mv = some b')
    (hm : C.isCheckmate b' = false) :
    walkPVAux C b (mv :: rest) idx =
      (C.uci mv :: (walkPVAux C b' rest (idx + 1)).1,
        (walkPVAux C b' rest (idx + 1)).2) := by
  conv_lhs => unfold walkPVAux
  rw [hp]
  simp [hm]

/-- Invariants of the principal-variation walk: a non-empty variation records
at least one move text, and a recorded checkmate index is the index of the
last recorded move (the walk stops there). -/
theorem walkPVAux_spec {B M : Type} (C : Chess B M) :
    ∀ (pv : List M) (b : B) (idx : Nat),
      (pv ≠ [] → (walkPVAux C b pv idx).1 ≠ []) ∧
      (∀ k, (walkPVAux C b pv idx).2 = some k →
        k + 1 = idx + (walkPVAux C b pv idx).1.length) := by
  intro pv
  induction pv with
  | nil =>
    intro b idx
    exact ⟨fun h => absurd rfl h, fun k h => by simp [walkPVAux] at h⟩
  | cons mv rest ih =>
    intro b idx
    cases hp : C.tryPush b mv with
    | none =>
      rw [walkPVAux_cons_fail C b mv rest idx hp]
      exact ⟨fun _ => by simp, fun k hk => by simp at hk⟩
    | some b' =>
      cases hm : C.isCheckmate b' with
      | true =>
        rw [walkPVAux_cons_mate C b b' mv rest idx hp hm]
        refine ⟨fun _ => by simp, fun k hk => ?_⟩
        simp at hk
        subst hk
        simp
      | false =>
        rw [walkPVAux_cons_step C b b' mv rest idx hp hm]
        refine ⟨fun _ => by simp, fun k hk => ?_⟩
        simp only at hk
        have := (ih b' (idx + 1)).2 k hk
        simp only [List.length_cons]
        omega

/-- Marker placement on a move list whose recorded checkmate index, when
present, is the last index: exactly the move at that index (the last move
otherwise) gets '#' appended; all other moves are unchanged. -/
theorem annotateMoves_spec (us : List String) (mi : Option Nat)
    (hne : us ≠ []) (hmi : ∀ k, mi = some k → k = us.length - 1) :
    ∃ j, j < us.length ∧
      (annotateMoves us mi)[j]? = some ((us[j]?).getD "" ++ "#") ∧
      (∀ i, i ≠ j → (annotateMoves us mi)[i]? = us[i]?) ∧
      j = mi.getD (us.length - 1) := by
  have hlen : 0 < us.length := List.length_pos.mpr hne
  have hemp : us.isEmpty = false := by
    cases us with
    | nil => exact absurd rfl hne
    | cons a t => rfl
  refine ⟨us.length - 1, by omega, ?_, ?_, ?_⟩
  · rw [annotateMoves, hemp]
    simp only [Bool.false_eq_true, if_false]
    have hmark : mi.getD (us.length - 1) = us.length - 1 := by
      cases mi with
      | none => rfl
      | some k => exact hmi k rfl
    rw [hmark, List.getElem?_set_eq (by omega), List.getD_eq_getElem?_getD]
  · intro i hi
    rw [annotateMoves, hemp]
    simp only [Bool.false_eq_true, if_false]
    have hmark : mi.getD (us.length - 1) = us.length - 1 := by
      cases mi with
      | none => rfl
      | some k => exact hmi k rfl
    rw [hmark]
    exact List.getElem?_set_ne (Ne.symm hi)
  · cases mi with
    | none => rfl
    | some k => exact (hmi k rfl).symm

/-- C4: for every non-empty principal variation, the annotated move list
carries the terminal '#' marker on exactly one move — the move at the recorded
checkmate index when one was found, and otherwise the last recorded move. -/
theorem pv_annotation_marks_one_move {B M : Type} (C : Chess B M) (b : B)
    (pv : List M) (hpv : pv ≠ []) :
    ∃ j, j < (walkPV C b pv).1.length ∧
      (annotateMoves (walkPV C b pv).1 (walkPV C b pv).2)[j]? =
        some (((walkPV C b pv).1[j]?).getD "" ++ "#") ∧
      (∀ i, i ≠ j →
        (annotateMoves (walkPV C b pv).1 (walkPV C b pv).2)[i]? =
          (walkPV C b pv).1[i]?) ∧
      j = ((walkPV C b pv).2).getD ((walkPV C b pv).1.length - 1) := by
  have h1 : (walkPV C b pv).1 ≠ [] := (walkPVAux_spec C pv b 0).1 hpv
  have h2 : ∀ k, (walkPV C b pv).2 = some k →
      k + 1 = 0 + (walkPV C b pv).1.length := (walkPVAux_spec C pv b 0).2
  exact annotateMoves_spec (walkPV C b pv).1 (walkPV C b pv).2 h1
    (fun k hk => by have := h2 k hk; omega)

/-- Closed instantiation of the annotation theorem: the variation `[1, 1]`
from board `0` reaches checkmate on its second move, and the marker lands on
exactly that move. -/
theorem pv_annotation_marks_one_move_witness :
    ∃ j, j < (walkPV witChess 0 [1, 1]).1.length ∧
      (annotateMoves (walkPV witChess 0 [1, 1]).1 (walkPV witChess 0 [1, 1]).2)[j]? =
        some (((walkPV witChess 0 [1, 1]).1[j]?).getD "" ++ "#") ∧
      (∀ i, i ≠ j →
        (annotateMoves (walkPV witChess 0 [1, 1]).1 (walkPV witChess 0 [1, 1]).2)[i]? =
          (walkPV witChess 0 [1, 1]).1[i]?) ∧
      j = ((walkPV witChess 0 [1, 1]).2).getD ((walkPV witChess 0 [1, 1]).1.length - 1) :=
  pv_annotation_marks_one_move witChess 0 [1, 1] (by decide)

/-! ## Claim C1: the filter keeps at most every line, within the mate bound -/

/-- A kept line can only come out of the guarded branch of the per-line
processing, so its mate magnitude lies in `[1, mate_limit]`. -/
theorem processLine_keep_bounds {B M : Type} (C : Chess B M) (env : FilterEnv M)
    (line : String) (p : Nat) (r : KeptLine)
    (h : processLine C env line p = .keep r) :
    1 ≤ r.mateMoves ∧ r.mateMoves ≤ env.mateLimit := by
  unfold processLine at h
  dsimp only at h
  repeat' split at h
  all_goals cases h
  all_goals simp_all

/-- Loop form of the kept-lines bound: the streaming loop keeps at most one
line per input line, every kept record's mate magnitude lies in
`[1, mate_limit]`, and a zero limit keeps nothing. -/
theorem filterLoop_kept_spec {B M : Type} (C : Chess B M) (env : FilterEnv M) :
    ∀ (lines : List String) (p : Nat),
      (filterLoop C env lines p).2.1.length ≤ lines.length ∧
      (∀ r ∈ (filterLoop C env lines p).2.1,
        1 ≤ r.mateMoves ∧ r.mateMoves ≤ env.mateLimit) ∧
      (env.mateLimit = 0 → (filterLoop C env lines p).2.1 = []) := by
  intro lines
  induction lines with
  | nil =>
    intro p
    refine ⟨?_, ?_, ?_⟩
    · simp [filterLoop]
    · intro r hr
      simp [filterLoop] at hr
    · intro _
      rfl
  | cons line rest ih =>
    intro p
    unfold filterLoop
    by_cases hs : env.stopAt p
    · rw [if_pos hs]
      refine ⟨?_, ?_, ?_⟩
      · simp
      · intro r hr
        simp at hr
      · intro _
        rfl
    · rw [if_neg hs]
      cases hp : processLine C env line (p + 1) with
      | fatal =>
        refine ⟨?_, ?_, ?_⟩
        · simp
        · intro r hr
          simp at hr
        · intro _
          rfl
      | skip =>
        refine ⟨?_, (ih (p + 1)).2.1, (ih (p + 1)).2.2⟩
        have := (ih (p + 1)).1
        simp only [List.length_cons]
        omega
      | keep r =>
        have hb := processLine_keep_bounds C env line (p + 1) r hp
        refine ⟨?_, ?_, ?_⟩
        · have := (ih (p + 1)).1
          simp only [List.length_cons]
          omega
        · intro x hx
          simp only [List.mem_cons] at hx
          rcases hx with rfl | hx
          · exact hb
          · exact (ih (p + 1)).2.1 x hx
        · intro h0
          exact absurd hb (by omega)

/-- C1: in every run of the filter pipeline the number of kept output lines is
at most the number of input lines; every kept line's mate magnitude `d`
satisfies `1 ≤ d ≤ mate_limit`; and with `mate_limit = 0` no line is ever
kept. -/
theorem filter_keeps_bounded {B M : Type} (C : Chess B M) (env : FilterEnv M) :
    (runFilter C env).kept.length ≤ env.lines.length ∧
    (∀ r ∈ (runFilter C env).kept,
      1 ≤ r.mateMoves ∧ r.mateMoves ≤ env.mateLimit) ∧
    (env.mateLimit = 0 → (runFilter C env).kept = []) := by
  unfold runFilter
  have hl := filterLoop_kept_spec C env env.lines 0
  split
  · exact ⟨by simp, fun r hr => by simp at hr, fun _ => rfl⟩
  · split
    · exact ⟨by simp, fun r hr => by simp at hr, fun _ => rfl⟩
    · split
      · exact ⟨by simp, fun r hr => by simp at hr, fun _ => rfl⟩
      · split
        · exact hl
        · exact hl

/-- Environment with a zero mate limit used to instantiate C1: one valid
line, an engine that reports mate in 1, and `mate_limit = 0`. -/
def envZeroLimit : FilterEnv Nat where
  engineStartOk := true
  lines := ["r1 r2 r3 r4 r5 r6 extra"]
  outputOpenOk := true
  step := fun _ => .reply (.info (some ⟨some 1, none, "mate 1"⟩) [1])
  stopAt := fun _ => false
  addSolution := true
  mateLimit := 0

/-- Closed instantiation of C1 at the zero mate limit: nothing is kept. -/
theorem filter_keeps_bounded_witness :
    (runFilter witChess envZeroLimit).kept = [] :=
  (filter_keeps_bounded witChess envZeroLimit).2.2 rfl

/-! ## Claim C2: engine shutdown on every exit path -/

/-- Environment exhibiting the engine leak: the engine starts, the input has
one line, and an uncaught exception escapes while processing it (one of the
unguarded log-callback calls raising), reaching the outer handler. -/
def envLeak : FilterEnv Nat where
  engineStartOk := true
  lines := ["r1 r2 r3 r4 r5 r6"]
  outputOpenOk := true
  step := fun _ => .fatal
  stopAt := fun _ => false
  addSolution := true
  mateLimit := 6

/-- C2 (code bug): on the fatal path — an unexpected exception raised during
line processing — the outer handler of `AnalyzerThread.run` (src/epd_mate.py
lines 366-370) only logs and never calls `engine.quit()`, so the started
engine is leaked, contradicting both the claim and the module's own
documentation ("Always closes engine and subprocesses"). -/
theorem filter_fatal_leaks_engine :
    (runFilter witChess envLeak).engineStarted = true ∧
    (runFilter witChess envLeak).engineQuit = false ∧
    (runFilter witChess envLeak).outcome = RunOutcome.fatal := by
  decide

/-! ## Revalidation-loop lemmas for the Puzzle Builder claims -/

/-- Unfolding lemma: a token that sanitizes to the empty string is skipped. -/
theorem revalidateLoop_cons_blank {B M : Type} (C : Chess B M) (b : B)
    (tok : String) (rest : List String) (h : sanitizeUci tok = "") :
    revalidateLoop C b (tok :: rest) = revalidateLoop C b rest := by
  conv_lhs => unfold revalidateLoop
  simp only [h, if_pos]

/-- Unfolding lemma: a token whose sanitized text fails to parse is skipped. -/
theorem revalidateLoop_cons_noparse {B M : Type} (C : Chess B M) (b : B)
    (tok : String) (rest : List String) (hne : sanitizeUci tok ≠ "")
    (hp : C.parseUci (sanitizeUci tok) = none) :
    revalidateLoop C b (tok :: rest) = revalidateLoop C b rest := by
  conv_lhs => unfold revalidateLoop
  simp only [if_neg hne, hp]

/-- Unfolding lemma: a token whose move is illegal in the current board state
is skipped. -/
theorem revalidateLoop_cons_illegal {B M : Type} (C : Chess B M) (b : B)
    (tok : String) (rest : List String) (mv : M) (hne : sanitizeUci tok ≠ "")
    (hp : C.parseUci (sanitizeUci tok) = some mv) (hl : C.isLegal b mv = false) :
    revalidateLoop C b (tok :: rest) = revalidateLoop C b rest := by
  conv_lhs => unfold revalidateLoop
  simp only [if_neg hne, hp, hl, Bool.false_eq_true, if_false]

/-- Unfolding lemma: a legal token whose push succeeds is applied and its
(uci, token) pair is recorded. -/
theorem revalidateLoop_cons_apply {B M : Type} (C : Chess B M) (b b' : B)
    (tok : String) (rest : List String) (mv : M) (hne : sanitizeUci tok ≠ "")
    (hp : C.parseUci (sanitizeUci tok) = some mv) (hl : C.isLegal b mv = true)
    (hpush : C.tryPush b mv = some b') :
    revalidateLoop C b (tok :: rest) =
      match revalidateLoop C b' rest with
      | none => none
      | some (bf, pairs) => some (bf, (sanitizeUci tok, tok) :: pairs) := by
  conv_lhs => unfold revalidateLoop
  simp only [if_neg hne, hp, hl, if_true, hpush]

/-- The first recorded pair of a successful revalidation parses to a move that
is legal on the starting board and pushes successfully there (tokens skipped
before it do not change the board). -/
theorem revalidateLoop_first_pair {B M : Type} (C : Chess B M) :
    ∀ (toks : List String) (b bf : B) (u t : String) (ps : List (String × String)),
      revalidateLoop C b toks = some (bf, (u, t) :: ps) →
      ∃ mv b1, u = sanitizeUci t ∧ C.parseUci u = some mv ∧
        C.isLegal b mv = true ∧ C.tryPush b mv = some b1 := by
  intro toks
  induction toks with
  | nil =>
    intro b bf u t ps h
    simp [revalidateLoop] at h
  | cons tok rest ih =>
    intro b bf u t ps h
    by_cases hz : sanitizeUci tok = ""
    · rw [revalidateLoop_cons_blank C b tok rest hz] at h
      exact ih b bf u t ps h
    · cases hp : C.parseUci (sanitizeUci tok) with
      | none =>
        rw [revalidateLoop_cons_noparse C b tok rest hz hp] at h
        exact ih b bf u t ps h
      | some mv =>
        cases hl : C.isLegal b mv with
        | false =>
          rw [revalidateLoop_cons_illegal C b tok rest mv hz hp hl] at h
          exact ih b bf u t ps h
        | true =>
          cases hpush : C.tryPush b mv with
          | none =>
            unfold revalidateLoop at h
            simp only [if_neg hz, hp, hl, if_true, hpush] at h
            exact Option.noConfusion h
          | some b' =>
            rw [revalidateLoop_cons_apply C b b' tok rest mv hz hp hl hpush] at h
            cases hrest : revalidateLoop C b' rest with
            | none => rw [hrest] at h; simp at h
            | some pr =>
              rw [hrest] at h
              obtain ⟨bf', pairs'⟩ := pr
              simp only [Option.some.injEq, Prod.mk.injEq, List.cons.injEq] at h
              obtain ⟨-, ⟨hu, ht⟩, -⟩ := h
              subst hu; subst ht
              exact ⟨mv, b', rfl, hp, hl, hpush⟩

/-- Parity invariant of the revalidation loop: each applied move flips the
side to move, so the final side to move is determined by the number of
applied moves. -/
theorem revalidateLoop_turn {B M : Type} (C : Chess B M) :
    ∀ (toks : List String) (b bf : B) (pairs : List (String × String)),
      revalidateLoop C b toks = some (bf, pairs) →
      C.turn bf = (if pairs.length % 2 = 0 then C.turn b else !C.turn b) := by
  intro toks
  induction toks with
  | nil =>
    intro b bf pairs h
    simp [revalidateLoop] at h
    obtain ⟨rfl, rfl⟩ := h
    simp
  | cons tok rest ih =>
    intro b bf pairs h
    by_cases hz : sanitizeUci tok = ""
    · rw [revalidateLoop_cons_blank C b tok rest hz] at h
      exact ih b bf pairs h
    · cases hp : C.parseUci (sanitizeUci tok) with
      | none =>
        rw [revalidateLoop_cons_noparse C b tok rest hz hp] at h
        exact ih b bf pairs h
      | some mv =>
        cases hl : C.isLegal b mv with
        | false =>
          rw [revalidateLoop_cons_illegal C b tok rest mv hz hp hl] at h
          exact ih b bf pairs h
        | true =>
          cases hpush : C.tryPush b mv with
          | none =>
            unfold revalidateLoop at h
            simp only [if_neg hz, hp, hl, if_true, hpush] at h
            exact Option.noConfusion h
          | some b' =>
            rw [revalidateLoop_cons_apply C b b' tok rest mv hz hp hl hpush] at h
            cases hrest : revalidateLoop C b' rest with
            | none => rw [hrest] at h; simp at h
            | some pr =>
              rw [hrest] at h
              obtain ⟨bf', pairs'⟩ := pr
              simp only [Option.some.injEq, Prod.mk.injEq] at h
              obtain ⟨hbf, hpairs⟩ := h
              have hrec := ih b' bf' pairs' hrest
              have hflip := C.turn_tryPush b mv b' hpush
              subst hbf
              rw [← hpairs]
              simp only [List.length_cons]
              rcases Nat.even_or_odd pairs'.length with he | ho
              · have h0 : pairs'.length % 2 = 0 := Nat.even_iff.mp he
                rw [if_pos h0] at hrec
                rw [if_neg (by omega : ¬((pairs'.length + 1) % 2 = 0))]
                rw [hrec, hflip]
              · have h0 : pairs'.length % 2 = 1 := Nat.odd_iff.mp ho
                rw [if_neg (by omega : ¬(pairs'.length % 2 = 0))] at hrec
                rw [if_pos (by omega : (pairs'.length + 1) % 2 = 0)]
                rw [hrec, hflip, Bool.not_not]

/-- When a successful revalidation records no pair, the first token already
fails one of the three checks (empty after sanitizing, unparsable, or
illegal on the starting board). -/
theorem revalidateLoop_nil_head {B M : Type} (C : Chess B M) (b : B)
    (t0 : String) (trest : List String) (bf : B)
    (h : revalidateLoop C b (t0 :: trest) = some (bf, [])) :
    sanitizeUci t0 = "" ∨ C.parseUci (sanitizeUci t0) = none ∨
      (∃ mv, C.parseUci (sanitizeUci t0) = some mv ∧ C.isLegal b mv = false) := by
  by_cases hz : sanitizeUci t0 = ""
  · exact Or.inl hz
  · cases hp : C.parseUci (sanitizeUci t0) with
    | none => exact Or.inr (Or.inl rfl)
    | some mv =>
      cases hl : C.isLegal b mv with
      | false => exact Or.inr (Or.inr ⟨mv, rfl, hl⟩)
      | true =>
        exfalso
        cases hpush : C.tryPush b mv with
        | none =>
          unfold revalidateLoop at h
          simp only [if_neg hz, hp, hl, if_true, hpush] at h
          exact Option.noConfusion h
        | some b' =>
          rw [revalidateLoop_cons_apply C b b' t0 trest mv hz hp hl hpush] at h
          cases hrest : revalidateLoop C b' trest with
          | none => rw [hrest] at h; simp at h
          | some pr =>
            rw [hrest] at h
            obtain ⟨bf', pairs'⟩ := pr
            simp at h

/-- Retention invariant: the original token texts of the applied moves form a
sublist of the input tokens. -/
theorem revalidateLoop_snd_sublist {B M : Type} (C : Chess B M) :
    ∀ (toks : List String) (b bf : B) (pairs : List (String × String)),
      revalidateLoop C b toks = some (bf, pairs) →
      List.Sublist (pairs.map Prod.snd) toks := by
  intro toks
  induction toks with
  | nil =>
    intro b bf pairs h
    simp [revalidateLoop] at h
    obtain ⟨rfl, rfl⟩ := h
    simp
  | cons tok rest ih =>
    intro b bf pairs h
    by_cases hz : sanitizeUci tok = ""
    · rw [revalidateLoop_cons_blank C b tok rest hz] at h
      exact (ih b bf pairs h).cons tok
    · cases hp : C.parseUci (sanitizeUci tok) with
      | none =>
        rw [revalidateLoop_cons_noparse C b tok rest hz hp] at h
        exact (ih b bf pairs h).cons tok
      | some mv =>
        cases hl : C.isLegal b mv with
        | false =>
          rw [revalidateLoop_cons_illegal C b tok rest mv hz hp hl] at h
          exact (ih b bf pairs h).cons tok
        | true =>
          cases hpush : C.tryPush b mv with
          | none =>
            unfold revalidateLoop at h
            simp only [if_neg hz, hp, hl, if_true, hpush] at h
            exact Option.noConfusion h
          | some b' =>
            rw [revalidateLoop_cons_apply C b b' tok rest mv hz hp hl hpush] at h
            cases hrest : revalidateLoop C b' rest with
            | none => rw [hrest] at h; simp at h
            | some pr =>
              rw [hrest] at h
              obtain ⟨bf', pairs'⟩ := pr
              simp only [Option.some.injEq, Prod.mk.injEq] at h
              rw [← h.2]
              simp only [List.map_cons]
              exact (ih b' bf' pairs' hrest).cons₂ tok

/-- In the no-valid-moves fallback the builder never bakes a move: the first
token already failed one of the checks the bake re-runs, so the emitted
solution is the whole original token list and the emitted board is the
original board with the turn forced to the fallback winner (when the
move-order flag is set). -/
theorem buildPuzzleEntry_fallback_eq {B M : Type} (C : Chess B M) (b : B)
    (t0 : String) (trest : List String) (mm : Option Nat) (bf : B)
    (hloop : revalidateLoop C b (t0 :: trest) = some (bf, [])) :
    ∀ fix : Bool, buildPuzzleEntry C b (t0 :: trest) mm fix =
      some ⟨C.fen (if fix then C.setTurn b (fallbackWinner C b mm) else b),
        t0 :: trest, mm, 1200, 0, 0⟩ := by
  intro fix
  unfold buildPuzzleEntry
  rw [hloop]
  dsimp only
  cases fix with
  | false => rfl
  | true =>
    simp only [if_true]
    rcases revalidateLoop_nil_head C b t0 trest bf hloop with hz | hpn | ⟨mv, hpm, hl⟩
    · rw [if_neg (fun hne => hne hz)]
    · by_cases hz' : sanitizeUci t0 = ""
      · rw [if_neg (fun hne => hne hz')]
      · rw [if_pos hz', hpn]
    · by_cases hz' : sanitizeUci t0 = ""
      · rw [if_neg (fun hne => hne hz')]
      · rw [if_pos hz', hpm]
        dsimp only
        rw [hl]
        rw [if_neg (by simp)]

/-! ## Claim C5: winning-side determination -/

/-- C5 counterexample: with no validated token and mate distance `0` (an even
number), the produced entry's side to move is the original side to move
(`false` here), not the other side (`true`) as the claim's parity rule
demands — the source treats a zero distance as falsy and skips the parity
computation entirely (src/epd_mate.py lines 456-466). -/
theorem puzzle_parity_zero_counterexample :
    (buildPuzzleEntry witChess 0 ["zz"] (some 0) true).map
        (fun e => witChess.fenTurn e.fen) = some (witChess.turn 0) ∧
      witChess.turn 0 = false ∧ (!witChess.turn 0) = true := by
  decide

/-- C5 (amended): when some token validated, the winner is the side not to
move in the final replayed position if it is checkmate and the original side
to move otherwise; when no token validated, the winner follows the parity of
the mate distance only for a present and nonzero distance (odd — original
side to move, even — the other side), and a zero or absent distance falls
back to the original side to move.  The winner is observed through the
side-to-move field of the emitted FEN with move-order fixing on. -/
theorem puzzle_winner_rule {B M : Type} (C : Chess B M) (b : B)
    (toks : List String) (mm : Option Nat) (bf : B)
    (pairs : List (String × String))
    (h : revalidateLoop C b toks = some (bf, pairs)) :
    (pairs ≠ [] →
      (buildPuzzleEntry C b toks mm true).map (fun e => C.fenTurn e.fen) =
        some (if C.isCheckmate bf then !C.turn bf else C.turn b)) ∧
    (pairs = [] → toks ≠ [] →
      (buildPuzzleEntry C b toks mm true).map (fun e => C.fenTurn e.fen) =
        some (match mm with
              | some n =>
                if n = 0 then C.turn b
                else if n % 2 = 1 then C.turn b else !C.turn b
              | none => C.turn b)) := by
  constructor
  · intro hne
    obtain ⟨⟨u, t⟩, ps, rfl⟩ : ∃ p ps, pairs = p :: ps := by
      cases pairs with
      | nil => exact absurd rfl hne
      | cons p ps => exact ⟨p, ps, rfl⟩
    unfold buildPuzzleEntry
    rw [h]
    dsimp only
    simp only [if_true, Option.map_some']
    rw [C.fenTurn_fen, C.turn_setTurn]
    rfl
  · intro hps htoks
    subst hps
    obtain ⟨t0, trest, rfl⟩ : ∃ t0 trest, toks = t0 :: trest := by
      cases toks with
      | nil => exact absurd rfl htoks
      | cons t0 trest => exact ⟨t0, trest, rfl⟩
    rw [buildPuzzleEntry_fallback_eq C b t0 trest mm bf h true]
    simp only [if_true, Option.map_some']
    rw [C.fenTurn_fen, C.turn_setTurn]
    cases mm with
    | none => rfl
    | some n =>
      by_cases h0 : n = 0
      · subst h0
        simp [fallbackWinner]
      · by_cases hpar : n % 2 = 1 <;> simp [fallbackWinner, h0, hpar]

/-- Closed instantiation of the amended winner rule on the main branch: two
validated moves reach a checkmate position, so the winner is the side not to
move there. -/
theorem puzzle_winner_rule_witness :
    (buildPuzzleEntry witChess 0 ["m1", "m1"] (some 2) true).map
        (fun e => witChess.fenTurn e.fen) =
      some (if witChess.isCheckmate 2 then !witChess.turn 2 else witChess.turn 0) :=
  (puzzle_winner_rule witChess 0 ["m1", "m1"] (some 2) 2
    [("m1", "m1"), ("m1", "m1")] (by decide)).1 (by decide)

/-! ## Claim C6: move-order normalization -/

/-- C6: with move-order fixing on and a validated move list, when the side to
move differs from the computed winner the builder applies the first validated
move, drops it from the emitted solution, and forces the emitted FEN's side to
move to the winner; when the side to move already equals the winner, the
emitted FEN is that of the original position and the validated token list is
emitted unchanged. -/
theorem puzzle_move_order_normalization {B M : Type} (C : Chess B M) (b : B)
    (toks : List String) (mm : Option Nat) (bf : B) (u t : String)
    (ps : List (String × String))
    (h : revalidateLoop C b toks = some (bf, (u, t) :: ps)) :
    (C.turn b ≠ mainWinner C b bf →
      ∃ mv b1, C.parseUci u = some mv ∧ C.tryPush b mv = some b1 ∧
        buildPuzzleEntry C b toks mm true =
          some ⟨C.fen (C.setTurn b1 (mainWinner C b bf)), ps.map Prod.snd,
            mm, 1200, 0, 0⟩ ∧
        C.fenTurn (C.fen (C.setTurn b1 (mainWinner C b bf))) =
          mainWinner C b bf) ∧
    (C.turn b = mainWinner C b bf →
      buildPuzzleEntry C b toks mm true =
        some ⟨C.fen b, ((u, t) :: ps).map Prod.snd, mm, 1200, 0, 0⟩) := by
  obtain ⟨mv, b1, hu, hp, hl, hpush⟩ :=
    revalidateLoop_first_pair C toks b bf u t ps h
  constructor
  · intro hw
    refine ⟨mv, b1, hp, hpush, ?_, ?_⟩
    · unfold buildPuzzleEntry
      rw [h]
      dsimp only
      simp only [if_true]
      rw [if_pos hw, hp]
      dsimp only
      simp only [hl, if_true]
      rw [hpush]
    · rw [C.fenTurn_fen, C.turn_setTurn]
  · intro hw
    unfold buildPuzzleEntry
    rw [h]
    dsimp only
    simp only [if_true]
    rw [if_neg (fun hne => hne hw)]
    have hset : C.setTurn b (mainWinner C b bf) = b := by
      rw [← hw]
      exact C.setTurn_turn b
    rw [hset]

/-- Closed instantiation of the normalization theorem: the winner after two
validated moves is the opponent of the starting side, so the first move is
baked into the FEN and dropped from the solution. -/
theorem puzzle_move_order_normalization_witness :
    ∃ mv b1, witChess.parseUci "m1" = some mv ∧
      witChess.tryPush 0 mv = some b1 ∧
      buildPuzzleEntry witChess 0 ["m1", "m1"] (some 2) true =
        some ⟨witChess.fen (witChess.setTurn b1 (mainWinner witChess 0 2)),
          [("m1", "m1")].map Prod.snd, some 2, 1200, 0, 0⟩ ∧
      witChess.fenTurn (witChess.fen (witChess.setTurn b1 (mainWinner witChess 0 2))) =
        mainWinner witChess 0 2 :=
  (puzzle_move_order_normalization witChess 0 ["m1", "m1"] (some 2) 2
    "m1" "m1" [("m1", "m1")] (by decide)).1 (by decide)

/-! ## Claim C7: emitted solutions are never empty -/

/-- C7: every emitted puzzle entry has a non-empty solution list, with or
without move-order normalization. -/
theorem puzzle_solution_nonempty {B M : Type} (C : Chess B M) (b : B)
    (toks : List String) (mm : Option Nat) (fix : Bool) (e : PuzzleEntry)
    (h : buildPuzzleEntry C b toks mm fix = some e) : e.solution ≠ [] := by
  cases hloop : revalidateLoop C b toks with
  | none =>
    unfold buildPuzzleEntry at h
    rw [hloop] at h
    exact Option.noConfusion h
  | some pr =>
    obtain ⟨bf, pairs⟩ := pr
    cases pairs with
    | nil =>
      cases toks with
      | nil =>
        unfold buildPuzzleEntry at h
        rw [hloop] at h
        exact Option.noConfusion h
      | cons t0 trest =>
        rw [buildPuzzleEntry_fallback_eq C b t0 trest mm bf hloop fix] at h
        have he := Option.some.inj h
        rw [← he]
        simp
    | cons p ps =>
      obtain ⟨u, t⟩ := p
      unfold buildPuzzleEntry at h
      rw [hloop] at h
      dsimp only at h
      cases fix with
      | false =>
        simp only [Bool.false_eq_true, if_false] at h
        have he := Option.some.inj h
        rw [← he]
        simp
      | true =>
        simp only [if_true] at h
        by_cases hw : C.turn b ≠ mainWinner C b bf
        · rw [if_pos hw] at h
          obtain ⟨mv, b1, hu, hp, hl, hpush⟩ :=
            revalidateLoop_first_pair C toks b bf u t ps hloop
          rw [hp] at h
          dsimp only at h
          simp only [hl, if_true] at h
          rw [hpush] at h
          dsimp only at h
          have hturn := revalidateLoop_turn C toks b bf ((u, t) :: ps) hloop
          cases hmate : C.isCheckmate bf with
          | false =>
            exfalso
            apply hw
            simp [mainWinner, hmate]
          | true =>
            cases hps : ps with
            | nil =>
              exfalso
              rw [hps] at hturn
              simp only [List.length_cons, List.length_nil] at hturn
              rw [if_neg (by omega)] at hturn
              apply hw
              simp only [mainWinner, hmate, if_true]
              rw [hturn, Bool.not_not]
            | cons q qs =>
              have he := Option.some.inj h
              rw [← he]
              simp [hps]
        · rw [if_neg hw] at h
          have he := Option.some.inj h
          rw [← he]
          simp

/-- Closed instantiation of the non-empty-solution invariant. -/
theorem puzzle_solution_nonempty_witness :
    (⟨witChess.fen 0, ["m1"], some 1, 1200, 0, 0⟩ : PuzzleEntry).solution ≠ [] :=
  puzzle_solution_nonempty witChess 0 ["m1"] (some 1) false
    ⟨witChess.fen 0, ["m1"], some 1, 1200, 0, 0⟩ (by decide)

/-! ## Claim C8: skipping invalid tokens, retaining applied ones -/

/-- C8: a token that fails to parse or is illegal in the current board state
is skipped while the remaining tokens are still replayed; every applied
move's original token text (marker included) is retained, forming a sublist
of the input tokens; and for one illegal token followed by one legal
checkmating token the emitted solution is exactly the legal token and a valid
entry is still produced. -/
theorem puzzle_skip_and_retain {B M : Type} (C : Chess B M) (b : B) :
    (∀ (tok : String) (rest : List String),
      (C.parseUci (sanitizeUci tok) = none ∨
        (∃ mv, C.parseUci (sanitizeUci tok) = some mv ∧ C.isLegal b mv = false)) →
      revalidateLoop C b (tok :: rest) = revalidateLoop C b rest) ∧
    (∀ (toks : List String) (bf : B) (pairs : List (String × String)),
      revalidateLoop C b toks = some (bf, pairs) →
      List.Sublist (pairs.map Prod.snd) toks) ∧
    (∀ (t1 t2 : String) (mv : M) (b1 : B),
      (C.parseUci (sanitizeUci t1) = none ∨
        (∃ mv1, C.parseUci (sanitizeUci t1) = some mv1 ∧
          C.isLegal b mv1 = false)) →
      sanitizeUci t2 ≠ "" → C.parseUci (sanitizeUci t2) = some mv →
      C.isLegal b mv = true → C.tryPush b mv = some b1 →
      C.isCheckmate b1 = true →
      buildPuzzleEntry C b [t1, t2] (some 1) false =
        some ⟨C.fen b, [t2], some 1, 1200, 0, 0⟩) := by
  have hskip : ∀ (tok : String) (rest : List String),
      (C.parseUci (sanitizeUci tok) = none ∨
        (∃ mv, C.parseUci (sanitizeUci tok) = some mv ∧ C.isLegal b mv = false)) →
      revalidateLoop C b (tok :: rest) = revalidateLoop C b rest := by
    intro tok rest hbad
    by_cases hz : sanitizeUci tok = ""
    · exact revalidateLoop_cons_blank C b tok rest hz
    · rcases hbad with hpn | ⟨mv, hpm, hl⟩
      · exact revalidateLoop_cons_noparse C b tok rest hz hpn
      · exact revalidateLoop_cons_illegal C b tok rest mv hz hpm hl
  refine ⟨hskip, fun toks => revalidateLoop_snd_sublist C toks b, ?_⟩
  intro t1 t2 mv b1 hbad hz2 hp2 hl2 hpush2 _
  have hloop : revalidateLoop C b [t1, t2] = some (b1, [(sanitizeUci t2, t2)]) := by
    rw [hskip t1 [t2] hbad,
      revalidateLoop_cons_apply C b b1 t2 [] mv hz2 hp2 hl2 hpush2]
    rfl
  unfold buildPuzzleEntry
  rw [hloop]
  rfl

/-- Closed instantiation of the skip-and-retain behaviour: the illegal token
"m9!" is dropped, the legal checkmating token "m1#" is retained with its
marker, and a valid entry is produced. -/
theorem puzzle_skip_and_retain_witness :
    buildPuzzleEntry witChessOne 0 ["m9!", "m1#"] (some 1) false =
      some ⟨witChessOne.fen 0, ["m1#"], some 1, 1200, 0, 0⟩ :=
  (puzzle_skip_and_retain witChessOne 0).2.2 "m9!" "m1#" 1 1
    (Or.inr ⟨9, by decide, by decide⟩) (by decide) (by decide) (by decide)
    (by decide) (by decide)

end EpdMate
